import Mathlib

/-!
# Shallow embedding of the `rust-iff` crate

This file embeds the IFF chunk-identifier and chunk types of the crate
(`src/chunkid.rs`, `src/chunk.rs`, and the duplicate inline module
`iff` in `src/lib.rs`) and proves the specified properties about them.

Bytes (`u8`) are modelled as `Fin 256`; byte slices as `List Byte`;
`i32` values as `Int` together with explicit range hypotheses; the
`as usize` cast as reduction modulo `2 ^ 64` (a 64-bit target).
Fallible constructors return `Except`/`Option` exactly as the Rust
functions return `Result`/`Option`.
-/

abbrev Byte := Fin 256

/-- Byte string of an ASCII string literal (used only to spell concrete
byte-slice inputs such as `b"data"` conveniently). -/
def strBytes (s : String) : List Byte :=
  s.data.map (fun c => ⟨c.toNat % 256, Nat.mod_lt _ (by omega)⟩)

/-! ## UTF-8 validation/decoding (Rust `std::str::from_utf8`)

`str::from_utf8` accepts a byte slice exactly when it is valid UTF-8.
We model it by a decoder that consumes one encoded scalar value at a
time, with the same acceptance conditions as `core::str`'s validation
(continuation bytes in `0x80..=0xBF`, no overlong encodings, no
surrogates, no scalar values above `0x10FFFF`). -/

def utf8IsCont (b : Nat) : Bool := 0x80 ≤ b && b ≤ 0xBF

/-- Decode one UTF-8 encoded scalar value whose first byte is `b` and whose
remaining input is `rest`; returns the decoded character and the unconsumed
input, or `none` if the input is not valid UTF-8 at this position. -/
def utf8DecodeOne (b : Nat) (rest : List Nat) : Option (Char × List Nat) :=
  if b ≤ 0x7F then
    some (Char.ofNat b, rest)
  else if 0xC2 ≤ b && b ≤ 0xDF then
    match rest with
    | b1 :: rest2 =>
      if utf8IsCont b1 then
        some (Char.ofNat ((b % 0x20) * 0x40 + (b1 % 0x40)), rest2)
      else none
    | [] => none
  else if 0xE0 ≤ b && b ≤ 0xEF then
    match rest with
    | b1 :: b2 :: rest3 =>
      if (if b == 0xE0 then decide (0xA0 ≤ b1) && decide (b1 ≤ 0xBF)
          else if b == 0xED then decide (0x80 ≤ b1) && decide (b1 ≤ 0x9F)
          else utf8IsCont b1) && utf8IsCont b2 then
        some (Char.ofNat ((b % 0x10) * 0x1000 + (b1 % 0x40) * 0x40 + (b2 % 0x40)), rest3)
      else none
    | _ => none
  else if 0xF0 ≤ b && b ≤ 0xF4 then
    match rest with
    | b1 :: b2 :: b3 :: rest4 =>
      if (if b == 0xF0 then decide (0x90 ≤ b1) && decide (b1 ≤ 0xBF)
          else if b == 0xF4 then decide (0x80 ≤ b1) && decide (b1 ≤ 0x8F)
          else utf8IsCont b1) && utf8IsCont b2 && utf8IsCont b3 then
        some (Char.ofNat ((b % 0x8) * 0x40000 + (b1 % 0x40) * 0x1000 + (b2 % 0x40) * 0x40 + (b3 % 0x40)), rest4)
      else none
    | _ => none
  else none

/-- Decoding loop; the fuel is an upper bound on the number of scalar values
left (each step consumes at least one byte, so the input length suffices). -/
def utf8DecodeGo : Nat → List Nat → Option (List Char)
  | _, [] => some []
  | 0, _ :: _ => none
  | fuel + 1, b :: rest =>
    match utf8DecodeOne b rest with
    | some (c, rest2) => (utf8DecodeGo fuel rest2).map (c :: ·)
    | none => none

def utf8Decode (l : List Nat) : Option (List Char) := utf8DecodeGo l.length l

/-- Rust `std::str::from_utf8`, on our byte model: succeeds with the decoded
string exactly when the bytes are valid UTF-8. -/
def from_utf8 (bs : List Byte) : Option String :=
  (utf8Decode (bs.map Fin.val)).map (fun cs => ⟨cs⟩)

/-! ## `src/chunkid.rs` -/

inductive ChunkIdError where
  | ShortLength
  | UnsupportedChar
  | SpacePrecedeLetter
deriving DecidableEq, Repr

/-- `pub struct ChunkId([u8; 4]);` — the constructor below only ever stores
exactly 4 bytes. -/
structure ChunkId where
  bytes : List Byte
deriving DecidableEq, Repr

def LOWER_CHAR_RANGE : Byte := 0x20
def UPPER_CHAR_RANGE : Byte := 0x7E
def SPACE_CHAR_CODE : Byte := 0x20

def is_allowed_char (chr : Byte) : Bool :=
  LOWER_CHAR_RANGE ≤ chr && chr ≤ UPPER_CHAR_RANGE

/-- `for idx in 0..3 { if id[idx] == ' ' && id[idx+1] != ' ' { return true } }`.
The indexing is guarded by the length check at the call site, so the
`getD` default is never consulted there. -/
def has_precede_spaces (id : List Byte) : Bool :=
  (List.range 3).any
    (fun idx => id.getD idx 0 == SPACE_CHAR_CODE && id.getD (idx + 1) 0 != SPACE_CHAR_CODE)

/-- `static RESERVED_CHUNK_IDS: [&'static [u8; 4]; 32]` of `src/chunkid.rs`. -/
def RESERVED_CHUNK_IDS : List (List Byte) :=
  [strBytes "LIST", strBytes "LIS1", strBytes "LIS2", strBytes "LIS3", strBytes "LIS4",
   strBytes "LIS5", strBytes "LIS6", strBytes "LIS7", strBytes "LIS8", strBytes "LIS9",
   strBytes "FORM", strBytes "FOR1", strBytes "FOR2", strBytes "FOR3", strBytes "FOR4",
   strBytes "FOR5", strBytes "FOR6", strBytes "FOR7", strBytes "FOR8", strBytes "FOR9",
   strBytes "CAT ", strBytes "CAT1", strBytes "CAT2", strBytes "CAT3", strBytes "CAT4",
   strBytes "CAT5", strBytes "CAT6", strBytes "CAT7", strBytes "CAT8", strBytes "CAT9",
   strBytes "PROP",
   strBytes "    "]

def ChunkId.new (slice : List Byte) : Except ChunkIdError ChunkId :=
  if h : slice.length < 4 then .error .ShortLength
  else if !((slice.take 4).all is_allowed_char) then .error .UnsupportedChar
  else if has_precede_spaces slice then .error .SpacePrecedeLetter
  else .ok ⟨[slice.get ⟨0, by omega⟩, slice.get ⟨1, by omega⟩,
             slice.get ⟨2, by omega⟩, slice.get ⟨3, by omega⟩]⟩

/-- `str::from_utf8(&self.0).unwrap()` — the `unwrap` is modelled by `getD`
with an arbitrary default; a theorem below shows the default is
unreachable for constructed identifiers. -/
def ChunkId.to_str (c : ChunkId) : String :=
  (from_utf8 c.bytes).getD ""

def ChunkId.is_reserved (c : ChunkId) : Bool :=
  RESERVED_CHUNK_IDS.contains c.bytes

/-- The `Display` impl for `ChunkId`: `write!(f, "{}", self.to_str())`. -/
def ChunkId.display (c : ChunkId) : String := c.to_str

/-! ## `src/chunk.rs` -/

structure Chunk where
  id : ChunkId
  size : Int
  data : List Byte
deriving DecidableEq, Repr

/-- Rust's `as usize` cast of an `i32` on a 64-bit target: sign-extend to
64 bits and reinterpret, i.e. reduce modulo `2 ^ 64`. -/
def i32_as_usize (n : Int) : Nat := (n % (2 ^ 64 : Int)).toNat

def Chunk.new (id : ChunkId) (size : Int) (data : List Byte) : Option Chunk :=
  if i32_as_usize size > data.length then none
  else some { id := id, size := size, data := data }

def Chunk.len (c : Chunk) : Int := c.size

/-- The `Display` impl for `Chunk`:
`write!(f, r#"Chunk "{id}". Size {size} bytes"#, id = self.id.to_str(), size = self.size)`. -/
def Chunk.display (c : Chunk) : String :=
  "Chunk \"" ++ c.id.to_str ++ "\". Size " ++ toString c.size ++ " bytes"

/-! ## The 32 reserved tags as listed in the spec (§6), verbatim as text -/

def specReservedTags : List String :=
  ["LIST", "LIS1", "LIS2", "LIS3", "LIS4", "LIS5", "LIS6", "LIS7", "LIS8", "LIS9",
   "FORM", "FOR1", "FOR2", "FOR3", "FOR4", "FOR5", "FOR6", "FOR7", "FOR8", "FOR9",
   "CAT ", "CAT1", "CAT2", "CAT3", "CAT4", "CAT5", "CAT6", "CAT7", "CAT8", "CAT9",
   "PROP",
   "    "]

/-- Decoding a single byte below `0x80` as a character. -/
def asciiChar (b : Byte) : Char := Char.ofNat b.val

/-- Decoding a list of ASCII bytes as a string. -/
def asciiStr (bs : List Byte) : String := ⟨bs.map asciiChar⟩

/-! ## The inline `iff` module of `src/lib.rs`

`lib.rs` carries a second, self-contained copy of the two types inside
`pub mod iff`.  It is identical to `src/chunkid.rs`/`src/chunk.rs` except
that its reserved table is an array of `&'static str` and `is_reserved`
compares `self.to_str()` against it (and its `to_str` slices `&self.0[0..]`,
which is the whole array). -/

namespace LibIff

inductive ChunkIdError where
  | ShortLength
  | UnsupportedChar
  | SpacePrecedeLetter
deriving DecidableEq, Repr

structure ChunkId where
  bytes : List Byte
deriving DecidableEq, Repr

def LOWER_CHAR_RANGE : Byte := 0x20
def UPPER_CHAR_RANGE : Byte := 0x7E
def SPACE_CHAR_CODE : Byte := 0x20

def is_allowed_char (chr : Byte) : Bool :=
  LOWER_CHAR_RANGE ≤ chr && chr ≤ UPPER_CHAR_RANGE

def has_precede_spaces (id : List Byte) : Bool :=
  (List.range 3).any
    (fun idx => id.getD idx 0 == SPACE_CHAR_CODE && id.getD (idx + 1) 0 != SPACE_CHAR_CODE)

/-- `static RESERVED_CHUNK_IDS: [&'static str; 32]` of the `iff` module. -/
def RESERVED_CHUNK_IDS : List String :=
  ["LIST", "LIS1", "LIS2", "LIS3", "LIS4", "LIS5", "LIS6", "LIS7", "LIS8", "LIS9",
   "FORM", "FOR1", "FOR2", "FOR3", "FOR4", "FOR5", "FOR6", "FOR7", "FOR8", "FOR9",
   "CAT ", "CAT1", "CAT2", "CAT3", "CAT4", "CAT5", "CAT6", "CAT7", "CAT8", "CAT9",
   "PROP",
   "    "]

def ChunkId.new (slice : List Byte) : Except ChunkIdError ChunkId :=
  if h : slice.length < 4 then .error .ShortLength
  else if !((slice.take 4).all is_allowed_char) then .error .UnsupportedChar
  else if has_precede_spaces slice then .error .SpacePrecedeLetter
  else .ok ⟨[slice.get ⟨0, by omega⟩, slice.get ⟨1, by omega⟩,
             slice.get ⟨2, by omega⟩, slice.get ⟨3, by omega⟩]⟩

/-- `str::from_utf8(&self.0[0..]).unwrap()`. -/
def ChunkId.to_str (c : ChunkId) : String :=
  (from_utf8 c.bytes).getD ""

def ChunkId.is_reserved (c : ChunkId) : Bool :=
  RESERVED_CHUNK_IDS.contains c.to_str

structure Chunk where
  id : ChunkId
  size : Int
  data : List Byte
deriving DecidableEq, Repr

def Chunk.new (id : ChunkId) (size : Int) (data : List Byte) : Option Chunk :=
  if i32_as_usize size > data.length then none
  else some { id := id, size := size, data := data }

def Chunk.len (c : Chunk) : Int := c.size

end LibIff

/-! ## Representations used to compare the two implementations -/

def ChunkIdError.code : ChunkIdError → Nat
  | .ShortLength => 0
  | .UnsupportedChar => 1
  | .SpacePrecedeLetter => 2

def LibIff.ChunkIdError.code : LibIff.ChunkIdError → Nat
  | .ShortLength => 0
  | .UnsupportedChar => 1
  | .SpacePrecedeLetter => 2

/-- A `ChunkId::new` outcome, reduced to implementation-independent data. -/
def chunkIdResultRepr (r : Except ChunkIdError ChunkId) : Except Nat (List Byte) :=
  match r with
  | .ok c => .ok c.bytes
  | .error e => .error e.code

def libChunkIdResultRepr (r : Except LibIff.ChunkIdError LibIff.ChunkId) :
    Except Nat (List Byte) :=
  match r with
  | .ok c => .ok c.bytes
  | .error e => .error e.code

deriving instance DecidableEq for Except

example : ChunkId.new (strBytes "data") = .ok ⟨strBytes "data"⟩ := by decide
example : ChunkId.new (strBytes "abc") = .error .ShortLength := by decide
example : ChunkId.new (strBytes "a bc") = .error .SpacePrecedeLetter := by decide
example : ChunkId.new [0, 1, 2, 3] = .error .UnsupportedChar := by decide
example : ChunkId.is_reserved ⟨strBytes "FORM"⟩ = true := by decide
example : ChunkId.is_reserved ⟨strBytes "FOR0"⟩ = false := by decide
example : ChunkId.to_str ⟨strBytes "abcd"⟩ = "abcd" := by decide
example : Chunk.new ⟨strBytes "data"⟩ 8 (List.replicate 4 0) = none := by decide
example : (Chunk.new ⟨strBytes "data"⟩ 4 (List.replicate 4 0)).isSome = true := by decide

/-! ## Helper lemmas -/

theorem char_toNat_ofNat (n : Nat) (h : n.isValidChar) : (Char.ofNat n).toNat = n := by
  rw [Char.ofNat, dif_pos h]
  rfl

theorem byte_isValidChar (b : Byte) : Nat.isValidChar b.val := by
  left
  omega

theorem asciiChar_inj : Function.Injective asciiChar := by
  intro a b h
  simp only [asciiChar] at h
  have ha := char_toNat_ofNat a.val (byte_isValidChar a)
  have hb := char_toNat_ofNat b.val (byte_isValidChar b)
  apply Fin.ext
  rw [← ha, ← hb, h]

theorem asciiStr_inj : Function.Injective asciiStr := by
  intro a b h
  have h2 : a.map asciiChar = b.map asciiChar := congrArg String.data h
  exact List.map_injective_iff.mpr asciiChar_inj h2

theorem utf8DecodeGo_ascii (fuel : Nat) (bs : List Nat) (hf : bs.length ≤ fuel)
    (h : ∀ b ∈ bs, b ≤ 0x7F) :
    utf8DecodeGo fuel bs = some (bs.map Char.ofNat) := by
  induction fuel generalizing bs with
  | zero =>
    cases bs with
    | nil => rfl
    | cons b rest => simp at hf
  | succ fuel ih =>
    cases bs with
    | nil => rfl
    | cons b rest =>
      have hb : b ≤ 0x7F := h b (List.mem_cons_self b rest)
      have hrest : ∀ x ∈ rest, x ≤ 0x7F := fun x hx => h x (List.mem_cons_of_mem b hx)
      have hone : utf8DecodeOne b rest = some (Char.ofNat b, rest) := by
        unfold utf8DecodeOne
        rw [if_pos hb]
      have hlen : rest.length ≤ fuel := by
        simp at hf
        omega
      simp [utf8DecodeGo, hone, ih rest hlen hrest]

theorem utf8Decode_ascii (bs : List Nat) (h : ∀ b ∈ bs, b ≤ 0x7F) :
    utf8Decode bs = some (bs.map Char.ofNat) :=
  utf8DecodeGo_ascii bs.length bs (Nat.le_refl _) h

theorem from_utf8_ascii (bs : List Byte) (h : ∀ b ∈ bs, b.val ≤ 0x7F) :
    from_utf8 bs = some (asciiStr bs) := by
  have h2 : ∀ x ∈ bs.map Fin.val, x ≤ 0x7F := by
    intro x hx
    obtain ⟨b, hb, rfl⟩ := List.mem_map.mp hx
    exact h b hb
  have h3 : (bs.map Fin.val).map Char.ofNat = bs.map asciiChar := by
    rw [List.map_map]
    rfl
  simp only [from_utf8]
  rw [utf8Decode_ascii _ h2, h3]
  rfl

theorem to_str_ascii (c : ChunkId) (h : ∀ b ∈ c.bytes, b.val ≤ 0x7F) :
    c.to_str = asciiStr c.bytes := by
  simp [ChunkId.to_str, from_utf8_ascii c.bytes h]

/-- The pairwise space-then-non-space scan, as a predicate on the first four
bytes. -/
theorem has_precede_spaces_iff (s : List Byte) :
    has_precede_spaces s = true ↔
      ∃ i, i < 3 ∧ s.getD i 0 = SPACE_CHAR_CODE ∧ s.getD (i + 1) 0 ≠ SPACE_CHAR_CODE := by
  unfold has_precede_spaces
  rw [List.any_eq_true]
  constructor
  · rintro ⟨i, hi, hcond⟩
    rw [List.mem_range] at hi
    simp only [Bool.and_eq_true, beq_iff_eq, bne_iff_ne] at hcond
    exact ⟨i, hi, hcond.1, hcond.2⟩
  · rintro ⟨i, hi, h1, h2⟩
    refine ⟨i, List.mem_range.mpr hi, ?_⟩
    simp only [Bool.and_eq_true, beq_iff_eq, bne_iff_ne]
    exact ⟨h1, h2⟩

theorem take_four_eq (s : List Byte) (h : ¬s.length < 4) :
    s.take 4 = [s.get ⟨0, by omega⟩, s.get ⟨1, by omega⟩, s.get ⟨2, by omega⟩,
      s.get ⟨3, by omega⟩] := by
  rcases s with _ | ⟨a, _ | ⟨b, _ | ⟨c, _ | ⟨d, t⟩⟩⟩⟩
  · simp at h
  · simp at h
  · simp at h
  · simp at h
  · rfl

/-- Everything `ChunkId::new` guarantees about a successful construction. -/
theorem chunkId_new_ok (s : List Byte) (c : ChunkId) (h : ChunkId.new s = .ok c) :
    ¬s.length < 4 ∧ (s.take 4).all is_allowed_char = true ∧
      has_precede_spaces s = false ∧ c.bytes = s.take 4 := by
  rw [ChunkId.new] at h
  split at h
  · exact absurd h (by simp)
  · split at h
    · exact absurd h (by simp)
    · split at h
      · exact absurd h (by simp)
      · rename_i h1 h2 h3
        refine ⟨h1, by simpa using h2, by simpa using h3, ?_⟩
        have hc : c = ⟨[s.get ⟨0, by omega⟩, s.get ⟨1, by omega⟩, s.get ⟨2, by omega⟩,
            s.get ⟨3, by omega⟩]⟩ := by
          injection h with h4
          exact h4.symm
        rw [hc, take_four_eq s h1]

/-- `ChunkId::new` succeeds when the length and both byte checks pass. -/
theorem chunkId_new_isOk (s : List Byte) (h1 : ¬s.length < 4)
    (h2 : (s.take 4).all is_allowed_char = true) (h3 : has_precede_spaces s = false) :
    ChunkId.new s = .ok ⟨[s.get ⟨0, by omega⟩, s.get ⟨1, by omega⟩, s.get ⟨2, by omega⟩,
      s.get ⟨3, by omega⟩]⟩ := by
  rw [ChunkId.new, dif_neg h1, if_neg (by simp [h2]), if_neg (by simp [h3])]

/-- With the length and character checks passed, failing with
`SpacePrecedeLetter` is exactly the pairwise space scan firing. -/
theorem chunkId_new_SPL (s : List Byte) (h1 : ¬s.length < 4)
    (h2 : (s.take 4).all is_allowed_char = true) :
    ChunkId.new s = .error .SpacePrecedeLetter ↔ has_precede_spaces s = true := by
  rw [ChunkId.new, dif_neg h1, if_neg (by simp [h2])]
  by_cases hp : has_precede_spaces s = true
  · simp [hp]
  · simp [hp]

theorem allowed_range (b : Byte) (h : is_allowed_char b = true) :
    0x20 ≤ b.val ∧ b.val ≤ 0x7E := by
  simp only [is_allowed_char, Bool.and_eq_true, decide_eq_true_eq] at h
  exact ⟨h.1, h.2⟩

theorem chunkId_new_bytes_allowed (s : List Byte) (c : ChunkId) (h : ChunkId.new s = .ok c) :
    ∀ b ∈ c.bytes, is_allowed_char b = true := by
  obtain ⟨h1, h2, h3, h4⟩ := chunkId_new_ok s c h
  intro b hb
  rw [h4] at hb
  exact List.all_eq_true.mp h2 b hb

theorem chunkId_new_bytes_ascii (s : List Byte) (c : ChunkId) (h : ChunkId.new s = .ok c) :
    ∀ b ∈ c.bytes, b.val ≤ 0x7F := by
  intro b hb
  have := allowed_range b (chunkId_new_bytes_allowed s c h b hb)
  omega

theorem reserved_tags_eq : specReservedTags = RESERVED_CHUNK_IDS.map asciiStr := by decide

theorem contains_iff_mem (l : List (List Byte)) (x : List Byte) :
    l.contains x = true ↔ x ∈ l := by
  simp [List.contains, List.elem_iff]

theorem is_reserved_iff_spec (c : ChunkId) (h : ∀ b ∈ c.bytes, b.val ≤ 0x7F) :
    c.is_reserved = true ↔ c.to_str ∈ specReservedTags := by
  rw [ChunkId.is_reserved, contains_iff_mem, to_str_ascii c h, reserved_tags_eq]
  exact (List.mem_map_of_injective asciiStr_inj).symm

theorem lib_tags_eq : LibIff.RESERVED_CHUNK_IDS = RESERVED_CHUNK_IDS.map asciiStr := by
  decide

theorem lib_to_str_ascii (c : LibIff.ChunkId) (h : ∀ b ∈ c.bytes, b.val ≤ 0x7F) :
    c.to_str = asciiStr c.bytes := by
  simp [LibIff.ChunkId.to_str, from_utf8_ascii c.bytes h]

theorem string_contains_iff_mem (l : List String) (x : String) :
    l.contains x = true ↔ x ∈ l := by
  simp [List.contains, List.elem_iff]

/-! ## The claims -/

/-- C5: for every byte sequence of length strictly less than 4, `ChunkId::new`
fails with `ShortLength`, regardless of the bytes, before any other check. -/
theorem c5_short_length (s : List Byte) (h : s.length < 4) :
    ChunkId.new s = .error .ShortLength := by
  rw [ChunkId.new, dif_pos h]

theorem c5_short_length_witness : ChunkId.new (strBytes "abc") = .error .ShortLength :=
  c5_short_length (strBytes "abc") (by decide)

/-- C4: on inputs of length at least 4 with some of the first 4 bytes outside
`[0x20, 0x7E]`, `ChunkId::new` fails with `UnsupportedChar`; in particular it
never reports `SpacePrecedeLetter` for such inputs, even when a space is
immediately followed by a non-space. -/
theorem c4_unsupported_char (s : List Byte) (h1 : 4 ≤ s.length)
    (h2 : ∃ x ∈ s.take 4, is_allowed_char x = false) :
    ChunkId.new s = .error .UnsupportedChar ∧
      ChunkId.new s ≠ .error .SpacePrecedeLetter := by
  obtain ⟨x, hx, hbad⟩ := h2
  have hall : (s.take 4).all is_allowed_char = false := by
    rw [Bool.eq_false_iff]
    intro hc
    rw [List.all_eq_true] at hc
    rw [hc x hx] at hbad
    exact absurd hbad (by simp)
  have hres : ChunkId.new s = .error .UnsupportedChar := by
    rw [ChunkId.new, dif_neg (by omega), if_pos (by simp [hall])]
  exact ⟨hres, by simp [hres]⟩

theorem c4_unsupported_char_witness :
    ChunkId.new [0x20, 0x01, 0x61, 0x62] = .error .UnsupportedChar ∧
      ChunkId.new [0x20, 0x01, 0x61, 0x62] ≠ .error .SpacePrecedeLetter :=
  c4_unsupported_char [0x20, 0x01, 0x61, 0x62] (by decide) ⟨0x01, by decide, by decide⟩

/-- C2: on inputs of length at least 4 whose first 4 bytes are all printable
ASCII, `ChunkId::new` fails with `SpacePrecedeLetter` exactly when some
adjacent pair among the first 4 bytes is a space followed by a non-space; an
identifier made of non-spaces followed only by trailing spaces always
constructs successfully. -/
theorem c2_space_precede_pairwise (s : List Byte) (h1 : 4 ≤ s.length)
    (h2 : (s.take 4).all is_allowed_char = true) :
    (ChunkId.new s = .error .SpacePrecedeLetter ↔
       ∃ i, i < 3 ∧ s.getD i 0 = SPACE_CHAR_CODE ∧ s.getD (i + 1) 0 ≠ SPACE_CHAR_CODE)
    ∧ ((∃ k, k ≤ 4 ∧ (∀ i, i < k → s.getD i 0 ≠ SPACE_CHAR_CODE) ∧
          (∀ i, i < 4 → k ≤ i → s.getD i 0 = SPACE_CHAR_CODE)) →
        (ChunkId.new s).isOk = true) := by
  have hlen : ¬s.length < 4 := by omega
  constructor
  · rw [chunkId_new_SPL s hlen h2]
    exact has_precede_spaces_iff s
  · rintro ⟨k, hk, hlo, hhi⟩
    have hps : has_precede_spaces s = false := by
      rw [Bool.eq_false_iff]
      intro hc
      obtain ⟨i, hi, hsp, hnsp⟩ := (has_precede_spaces_iff s).mp hc
      have hik : k ≤ i := by
        by_contra hik
        exact hlo i (by omega) hsp
      exact hnsp (hhi (i + 1) (by omega) (by omega))
    rw [chunkId_new_isOk s hlen h2 hps]
    rfl

theorem c2_space_precede_pairwise_witness :
    ChunkId.new (strBytes "A BC") = .error .SpacePrecedeLetter ∧
      (ChunkId.new (strBytes "AB  ")).isOk = true ∧
      (ChunkId.new (strBytes "A   ")).isOk = true ∧
      (ChunkId.new (strBytes "    ")).isOk = true :=
  ⟨(c2_space_precede_pairwise (strBytes "A BC") (by decide) (by decide)).1.mpr
      ⟨1, by decide⟩,
   (c2_space_precede_pairwise (strBytes "AB  ") (by decide) (by decide)).2
      ⟨2, by decide, by decide, by decide⟩,
   (c2_space_precede_pairwise (strBytes "A   ") (by decide) (by decide)).2
      ⟨1, by decide, by decide, by decide⟩,
   (c2_space_precede_pairwise (strBytes "    ") (by decide) (by decide)).2
      ⟨0, by decide, by decide, by decide⟩⟩

/-- C6: a successful `ChunkId::new` stores exactly the first 4 input bytes;
bytes past the fourth influence neither validation nor the stored value, and
constructing from `"abcde"` yields text `"abcd"`. -/
theorem c6_first_four_bytes :
    (∀ (s : List Byte) (c : ChunkId), ChunkId.new s = .ok c → c.bytes = s.take 4)
    ∧ (∀ s : List Byte, 4 ≤ s.length → ChunkId.new s = ChunkId.new (s.take 4))
    ∧ (ChunkId.new (strBytes "abcde")).map ChunkId.to_str = .ok "abcd" := by
  refine ⟨fun s c h => (chunkId_new_ok s c h).2.2.2, fun s h => ?_, by decide⟩
  rcases s with _ | ⟨a, _ | ⟨b, _ | ⟨c, _ | ⟨d, t⟩⟩⟩⟩
  · simp at h
  · simp at h
  · simp at h
  · simp at h
  · have hl1 : ¬(a :: b :: c :: d :: t).length < 4 := by simp
    have hl2 : ¬((a :: b :: c :: d :: t).take 4).length < 4 := by simp
    rw [ChunkId.new, ChunkId.new, dif_neg hl1, dif_neg hl2]
    rfl

theorem c6_first_four_bytes_witness : ChunkId.bytes ⟨strBytes "abcd"⟩ = (strBytes "abcde").take 4 :=
  c6_first_four_bytes.1 (strBytes "abcde") ⟨strBytes "abcd"⟩ (by decide)

/-- C7: for every successfully constructed `ChunkId`, the UTF-8 conversion
inside `to_str` succeeds — the `unwrap` is unreachable, because every stored
byte lies in the printable-ASCII range. -/
theorem c7_to_str_never_fails (s : List Byte) (c : ChunkId) (h : ChunkId.new s = .ok c) :
    (from_utf8 c.bytes).isSome = true := by
  rw [from_utf8_ascii c.bytes (chunkId_new_bytes_ascii s c h)]
  rfl

theorem c7_to_str_never_fails_witness :
    (from_utf8 (ChunkId.bytes ⟨strBytes "data"⟩)).isSome = true :=
  c7_to_str_never_fails (strBytes "data") ⟨strBytes "data"⟩ (by decide)

/-- C3: for every successfully constructed `ChunkId`, `is_reserved` is true
exactly when its text equals one of the 32 reserved tags listed in the spec
(case-sensitive, exact 4-character match including spaces). -/
theorem c3_is_reserved_spec (s : List Byte) (c : ChunkId) (h : ChunkId.new s = .ok c) :
    c.is_reserved = true ↔ c.to_str ∈ specReservedTags :=
  is_reserved_iff_spec c (chunkId_new_bytes_ascii s c h)

theorem c3_is_reserved_spec_witness : ChunkId.is_reserved ⟨strBytes "FORM"⟩ = true :=
  (c3_is_reserved_spec (strBytes "FORM") ⟨strBytes "FORM"⟩ (by decide)).mpr (by decide)

/-- C8: every `Chunk` renders as the literal form
`Chunk "XXXX". Size N bytes` with the identifier's text and the decimal
declared size; the chunk built from identifier `"data"`, size 0 and an empty
buffer renders exactly as `Chunk "data". Size 0 bytes`. -/
theorem c8_display_format :
    (∀ ch : Chunk,
      ch.display = "Chunk \"" ++ ch.id.to_str ++ "\". Size " ++ toString ch.size ++ " bytes")
    ∧ ((ChunkId.new (strBytes "data")).toOption.bind
        (fun id => Chunk.new id 0 [])).map Chunk.display =
        some "Chunk \"data\". Size 0 bytes" := by
  refine ⟨fun ch => rfl, ?_⟩
  decide

/-- C1 (counterexample): the claim "`Chunk::new(id, size, data)` returns `Some`
iff `size ≤ length(data)`" is false for the i32 size `-1` with an empty buffer:
`-1 ≤ 0`, yet construction returns `None`. -/
theorem c1_counterexample :
    ¬((Chunk.new ⟨strBytes "data"⟩ (-1) []).isSome = true ↔
        (-1 : Int) ≤ (([] : List Byte).length : Int)) := by
  decide

/-- C1 (amended): for every nonnegative i32 size, `Chunk::new(id, size, data)`
returns `Some` iff `size ≤ length(data)`, and on success `len()` returns the
declared size unchanged. -/
theorem c1_amended_size_check (id : ChunkId) (size : Int) (data : List Byte)
    (h1 : 0 ≤ size) (h2 : size < 2 ^ 31) :
    ((Chunk.new id size data).isSome = true ↔ size ≤ (data.length : Int))
    ∧ ∀ ch, Chunk.new id size data = some ch → ch.len = size := by
  have hu : i32_as_usize size = size.toNat := by
    unfold i32_as_usize
    omega
  constructor
  · by_cases hgt : i32_as_usize size > data.length
    · rw [Chunk.new, if_pos hgt]
      simp only [Option.isSome_none, Bool.false_eq_true, false_iff]
      omega
    · rw [Chunk.new, if_neg hgt]
      simp only [Option.isSome_some, true_iff]
      omega
  · intro ch hch
    rw [Chunk.new] at hch
    split at hch
    · exact absurd hch (by simp)
    · injection hch with h3
      rw [← h3]
      rfl

theorem c1_amended_size_check_witness :
    ((Chunk.new ⟨strBytes "data"⟩ 4 (List.replicate 4 0)).isSome = true) ∧
      ((Chunk.new ⟨strBytes "data"⟩ 8 (List.replicate 4 0)).isSome = false) := by
  refine ⟨((c1_amended_size_check ⟨strBytes "data"⟩ 4 (List.replicate 4 0)
      (by decide) (by decide)).1).mpr (by decide), ?_⟩
  have h := (c1_amended_size_check ⟨strBytes "data"⟩ 8 (List.replicate 4 0)
      (by decide) (by decide)).1
  rw [Bool.eq_false_iff]
  intro hc
  have h8 := h.mp hc
  revert h8
  decide

/-- C9: a strictly negative i32 declared size always makes `Chunk::new` return
`None` (for any buffer shorter than `2 ^ 63`): the `as usize` cast wraps the
negative value modulo `2 ^ 64`, producing a huge unsigned count that fails the
capacity check. -/
theorem c9_negative_size_none (id : ChunkId) (size : Int) (data : List Byte)
    (h1 : -(2 ^ 31) ≤ size) (h2 : size < 0) (h3 : data.length < 2 ^ 63) :
    Chunk.new id size data = none := by
  have hgt : i32_as_usize size > data.length := by
    unfold i32_as_usize
    omega
  rw [Chunk.new, if_pos hgt]

theorem c9_negative_size_none_witness : Chunk.new ⟨strBytes "data"⟩ (-1) [] = none :=
  c9_negative_size_none ⟨strBytes "data"⟩ (-1) [] (by decide) (by decide) (by decide)

/-- C10: the inline `iff` module of `lib.rs` and the crate-root implementation
agree at the public interface: `ChunkId::new` returns the same outcome (same
stored bytes or same error variant) on every input, the two `is_reserved`
implementations agree on every valid identifier, and `Chunk::new`/`len` agree
on every input. -/
theorem c10_modules_equivalent (s : List Byte) (size : Int) (data : List Byte) :
    chunkIdResultRepr (ChunkId.new s) = libChunkIdResultRepr (LibIff.ChunkId.new s)
    ∧ ∀ (a : ChunkId) (b : LibIff.ChunkId),
        ChunkId.new s = .ok a → LibIff.ChunkId.new s = .ok b →
          (a.is_reserved = b.is_reserved
           ∧ (Chunk.new a size data).map Chunk.len =
               (LibIff.Chunk.new b size data).map LibIff.Chunk.len
           ∧ (Chunk.new a size data).isSome = (LibIff.Chunk.new b size data).isSome) := by
  have hrepr : chunkIdResultRepr (ChunkId.new s) = libChunkIdResultRepr (LibIff.ChunkId.new s) := by
    unfold ChunkId.new LibIff.ChunkId.new
    have e1 : LibIff.is_allowed_char = is_allowed_char := rfl
    have e2 : LibIff.has_precede_spaces = has_precede_spaces := rfl
    rw [e1, e2]
    by_cases hc1 : s.length < 4
    · rw [dif_pos hc1, dif_pos hc1]
      rfl
    · rw [dif_neg hc1, dif_neg hc1]
      by_cases hc2 : (!(s.take 4).all is_allowed_char) = true
      · rw [if_pos hc2, if_pos hc2]
        rfl
      · rw [if_neg hc2, if_neg hc2]
        by_cases hc3 : has_precede_spaces s = true
        · rw [if_pos hc3, if_pos hc3]
          rfl
        · rw [if_neg hc3, if_neg hc3]
          rfl
  refine ⟨hrepr, fun a b ha hb => ?_⟩
  have hbytes : a.bytes = b.bytes := by
    rw [ha, hb] at hrepr
    simpa [chunkIdResultRepr, libChunkIdResultRepr] using hrepr
  have hv : ∀ x ∈ a.bytes, x.val ≤ 0x7F := chunkId_new_bytes_ascii s a ha
  have hvb : ∀ x ∈ b.bytes, x.val ≤ 0x7F := by
    rw [← hbytes]
    exact hv
  refine ⟨?_, ?_, ?_⟩
  · have hM : a.is_reserved = true ↔ a.bytes ∈ RESERVED_CHUNK_IDS := by
      rw [ChunkId.is_reserved, contains_iff_mem]
    have hL : b.is_reserved = true ↔ a.bytes ∈ RESERVED_CHUNK_IDS := by
      rw [LibIff.ChunkId.is_reserved, string_contains_iff_mem,
        lib_to_str_ascii b hvb, lib_tags_eq, ← hbytes]
      exact List.mem_map_of_injective asciiStr_inj
    rw [Bool.eq_iff_iff, hM, hL]
  · by_cases hgt : i32_as_usize size > data.length
    · rw [Chunk.new, LibIff.Chunk.new, if_pos hgt, if_pos hgt]
      rfl
    · rw [Chunk.new, LibIff.Chunk.new, if_neg hgt, if_neg hgt]
      rfl
  · by_cases hgt : i32_as_usize size > data.length
    · rw [Chunk.new, LibIff.Chunk.new, if_pos hgt, if_pos hgt]
      rfl
    · rw [Chunk.new, LibIff.Chunk.new, if_neg hgt, if_neg hgt]
      rfl

theorem c10_modules_equivalent_witness :
    ChunkId.is_reserved ⟨strBytes "CAT "⟩ = LibIff.ChunkId.is_reserved ⟨strBytes "CAT "⟩ :=
  ((c10_modules_equivalent (strBytes "CAT ") 0 []).2 ⟨strBytes "CAT "⟩ ⟨strBytes "CAT "⟩
    (by decide) (by decide)).1
